import Mathlib

/-!
# gh-contrib-stats: date-range aggregation of weekly contributor statistics

A shallow embedding of the Go packages `pkg/github` (data model), `pkg/app`
(aggregation, normalisation, validation, filtering) and of `processInput` and the
aggregation pipeline of `main.go`, together with the part of Go's `time` package
these functions call.

Conventions of the embedding:

* Go `int64` and `int` (taken as 64 bits wide) values are integers; every Go
  addition is followed by `wrapInt64`, the reduction to the two's-complement range.
* Go `error` is `Option String`: `none` is `nil`, `some msg` an error with that text.
* A Go slice is a `List`; `for _, x := range xs` is a left fold.
* Every call of `time.Now()` is an explicit argument (one argument per call).
-/

namespace GhContribStats

/-! ## Machine integers -/

/-- Reduction of an integer to the signed 64-bit range `[-2^63, 2^63)`. -/
def wrapInt64 (x : Int) : Int := (x + 2 ^ 63) % 2 ^ 64 - 2 ^ 63

/-- Go `a + b` on `int` / `int64`. -/
def addInt (a b : Int) : Int := wrapInt64 (a + b)

/-- The value lies in the signed 64-bit range. -/
def InInt64 (x : Int) : Prop := -2 ^ 63 ≤ x ∧ x < 2 ^ 63

instance (x : Int) : Decidable (InInt64 x) :=
  inferInstanceAs (Decidable (-2 ^ 63 ≤ x ∧ x < 2 ^ 63))

/-! ## Package `time` (the part used by the program) -/

namespace time

/-- Go `time.Time`: the `wall` word (`uint64`) and the `ext` word (`int64`).
The location pointer takes no part in any operation used here and is left out. -/
structure Time where
  wall : Nat
  ext : Int
deriving DecidableEq, Repr

/-- Flag bit of `wall`: the value carries a monotonic clock reading in `ext`. -/
def hasMonotonic : Nat := 2 ^ 63

def nsecMask : Nat := 2 ^ 30 - 1

def nsecShift : Nat := 30

/-- Seconds from Jan 1 year 1 to Jan 1 1885. -/
def wallToInternal : Int := (1884 * 365 + 1884 / 4 - 1884 / 100 + 1884 / 400) * 86400

/-- Seconds from Jan 1 year 1 to Jan 1 1970. -/
def unixToInternal : Int := (1969 * 365 + 1969 / 4 - 1969 / 100 + 1969 / 400) * 86400

/-- Go `(*Time).nsec`: `int32(t.wall & nsecMask)`. -/
def Time.nsec (t : Time) : Int := ((t.wall &&& nsecMask : Nat) : Int)

/-- Go `(*Time).sec`: seconds since Jan 1 year 1. -/
def Time.sec (t : Time) : Int :=
  if t.wall &&& hasMonotonic ≠ 0 then
    wallToInternal + (((((t.wall <<< 1) % 2 ^ 64) >>> (nsecShift + 1)) : Nat) : Int)
  else t.ext

/-- Go `Time.IsZero`. -/
def Time.IsZero (t : Time) : Bool := decide (t.sec = 0) && decide (t.nsec = 0)

/-- Go `Time.After`. -/
def Time.After (t u : Time) : Bool :=
  if t.wall &&& u.wall &&& hasMonotonic ≠ 0 then decide (t.ext > u.ext)
  else
    let ts := t.sec
    let us := u.sec
    decide (ts > us) || (decide (ts = us) && decide (t.nsec > u.nsec))

/-- Go `Time.Before`. -/
def Time.Before (t u : Time) : Bool :=
  if t.wall &&& u.wall &&& hasMonotonic ≠ 0 then decide (t.ext < u.ext)
  else
    let ts := t.sec
    let us := u.sec
    decide (ts < us) || (decide (ts = us) && decide (t.nsec < u.nsec))

/-- Go `Time.Equal`. -/
def Time.Equal (t u : Time) : Bool :=
  if t.wall &&& u.wall &&& hasMonotonic ≠ 0 then decide (t.ext = u.ext)
  else decide (t.sec = u.sec) && decide (t.nsec = u.nsec)

/-- Go `unixTime`: `Time{uint64(nsec), sec + unixToInternal, Local}`. -/
def unixTime (sec nsec : Int) : Time :=
  { wall := (nsec % 2 ^ 64).toNat, ext := wrapInt64 (sec + unixToInternal) }

/-- Go `time.Unix(sec, nsec)`. -/
def Unix (sec nsec : Int) : Time :=
  if nsec < 0 ∨ nsec ≥ 1000000000 then
    let n := Int.tdiv nsec 1000000000
    let sec1 := wrapInt64 (sec + n)
    let nsec1 := wrapInt64 (nsec - wrapInt64 (n * 1000000000))
    if nsec1 < 0 then unixTime (wrapInt64 (sec1 - 1)) (wrapInt64 (nsec1 + 1000000000))
    else unixTime sec1 nsec1
  else unixTime sec nsec

/-- The zero value `time.Time{}`: Jan 1 year 1, 00:00:00 UTC. -/
def zeroTime : Time := { wall := 0, ext := 0 }

/-- Wall-clock order of two time values: `t` denotes an instant strictly before `u`
(seconds first, then nanoseconds). -/
def Time.instLT (t u : Time) : Prop := t.sec < u.sec ∨ (t.sec = u.sec ∧ t.nsec < u.nsec)

/-- Wall-clock order of two time values: `t` denotes an instant at or before `u`. -/
def Time.instLE (t u : Time) : Prop := t.sec < u.sec ∨ (t.sec = u.sec ∧ t.nsec ≤ u.nsec)

instance (t u : Time) : Decidable (t.instLT u) :=
  inferInstanceAs (Decidable (t.sec < u.sec ∨ (t.sec = u.sec ∧ t.nsec < u.nsec)))

instance (t u : Time) : Decidable (t.instLE u) :=
  inferInstanceAs (Decidable (t.sec < u.sec ∨ (t.sec = u.sec ∧ t.nsec ≤ u.nsec)))

/-- Go orders the two time values as the wall clock does: `t.Equal(u)` holds exactly for
the same instant and `t.After(u)` exactly when `u` is the earlier instant. (Two values
that both carry a monotonic clock reading are compared by these readings instead, which
agree with the wall clock as long as the wall clock is not set back between them.) -/
def Time.comparesByWallClock (t u : Time) : Prop :=
  (t.Equal u = true ↔ (t.sec = u.sec ∧ t.nsec = u.nsec)) ∧ (t.After u = true ↔ u.instLT t)

instance (t u : Time) : Decidable (t.comparesByWallClock u) :=
  inferInstanceAs (Decidable (_ ∧ _))

end time

/-! ## Package `github` (data model) -/

namespace github

structure Author where
  Login : String
deriving DecidableEq, Repr

/-- One weekly bucket: `WeekBeginning` is `int64` epoch seconds, the counters are `int`. -/
structure Week where
  WeekBeginning : Int
  Additions : Int
  Deletions : Int
  Commits : Int
deriving DecidableEq, Repr

structure ContributorStats where
  Author : Author
  Weeks : List Week
deriving DecidableEq, Repr

end github

/-! ## Package `app` -/

namespace app

open time

structure Stats where
  Additions : Int
  Deletions : Int
  Commits : Int
deriving DecidableEq, Repr

structure Contributor where
  Name : String
  Stats : Stats
deriving DecidableEq, Repr

structure CalcContrbutionsOpts where
  From : Time
  To : Time
deriving DecidableEq, Repr

/-- The condition of the `if` in the loop of `CalcContributions`, for the bucket `w`. -/
def weekSelected (options : CalcContrbutionsOpts) (w : github.Week) : Bool :=
  let wb := Unix w.WeekBeginning 0
  (options.From.Equal wb || wb.After options.From) && wb.Before options.To

/-- One iteration of the loop of `CalcContributions`. -/
def calcStep (options : CalcContrbutionsOpts) (res : Contributor) (w : github.Week) :
    Contributor :=
  if weekSelected options w then
    { Name := res.Name,
      Stats :=
        { Additions := addInt res.Stats.Additions w.Additions,
          Deletions := addInt res.Stats.Deletions w.Deletions,
          Commits := addInt res.Stats.Commits w.Commits } }
  else res

/-- Go `CalcContributions`. -/
def CalcContributions (contributor : github.ContributorStats)
    (options : CalcContrbutionsOpts) : Contributor :=
  contributor.Weeks.foldl (calcStep options)
    { Name := contributor.Author.Login,
      Stats := { Additions := 0, Deletions := 0, Commits := 0 } }

/-- The range test in the words of the specification: the instant at which the week of
the bucket starts, `time.Unix(w.WeekBeginning, 0)`, is at or after `From` and strictly
before `To`. -/
def InRange (options : CalcContrbutionsOpts) (w : github.Week) : Prop :=
  options.From.instLE (Unix w.WeekBeginning 0) ∧ (Unix w.WeekBeginning 0).instLT options.To

instance (options : CalcContrbutionsOpts) (w : github.Week) : Decidable (InRange options w) :=
  inferInstanceAs (Decidable (_ ∧ _))

/-- The buckets of a list that lie in the range, in the words of the specification. -/
def bucketsInRange (options : CalcContrbutionsOpts) (ws : List github.Week) :
    List github.Week :=
  ws.filter (fun w => decide (InRange options w))

/-- The sum of a list of Go `int` values as a Go `int`: the integer sum reduced to the
64-bit range (equal to the integer sum whenever that lies in the range). -/
def sumInt (xs : List Int) : Int := wrapInt64 xs.sum

/-- The totals in the words of the specification: each counter summed over the buckets
in range. -/
def specTotals (options : CalcContrbutionsOpts) (ws : List github.Week) : Stats :=
  { Additions := sumInt ((bucketsInRange options ws).map (fun w => w.Additions)),
    Deletions := sumInt ((bucketsInRange options ws).map (fun w => w.Deletions)),
    Commits := sumInt ((bucketsInRange options ws).map (fun w => w.Commits)) }

/-- Go `NormaliseCalcContributionsOpts`; `now` is the value of its `time.Now()`. -/
def NormaliseCalcContributionsOpts (options : CalcContrbutionsOpts) (now : Time) :
    CalcContrbutionsOpts :=
  let fromT := options.From
  let toT := if options.To.IsZero then now else options.To
  { From := fromT, To := toT }

def invalidRangeMsg : String :=
  "invalid date range given. " ++
    "`from` date must be before `to` date and neither `from` or `to` can be in the future"

/-- Go `ValidateCalcContributionsOpts`; `now1` and `now2` are the values of the first
and of the second `time.Now()` of its condition. -/
def ValidateCalcContributionsOpts (options : CalcContrbutionsOpts) (now1 now2 : Time) :
    Option String :=
  if options.From.Equal options.To || options.From.After options.To ||
      options.From.After now1 || options.To.After now2 then
    some invalidRangeMsg
  else none

/-- Go `FilterContributors`: `res` starts empty and grows by `append`. -/
def FilterContributors (cs : List Contributor) (f : Contributor → Bool) : List Contributor :=
  cs.foldl (fun res c => if f c then res ++ [c] else res) []

end app

/-! ## Package `strings` and date parsing (the part used by `processInput`) -/

namespace strings

/-- Go `strings.Split(s, "/")` on the characters of `s`: the pieces between successive
occurrences of the separator, in order; a string without separator is its only piece.
(The separator is a single ASCII byte, so cutting at characters and cutting at bytes
of the UTF-8 text give the same pieces.) -/
def splitSlash : List Char → List (List Char)
  | [] => [[]]
  | c :: cs =>
    if c = '/' then [] :: splitSlash cs
    else
      match splitSlash cs with
      | [] => [[c]]
      | piece :: pieces => (c :: piece) :: pieces

/-- Go `strings.Split(s, "/")`. -/
def Split (s : String) : List String := (splitSlash s.data).map String.mk

end strings

namespace time

/-- Go `isLeap`. -/
def isLeap (year : Int) : Bool := year % 4 = 0 && (year % 100 ≠ 0 || year % 400 = 0)

/-- Go `daysIn` for a month number in 1..12. -/
def daysIn (month year : Int) : Int :=
  if month = 2 then (if isLeap year then 29 else 28)
  else if month = 4 ∨ month = 6 ∨ month = 9 ∨ month = 11 then 30
  else 31

/-- Go table `daysBefore`: days of a non-leap year before the month (1..12) starts. -/
def daysBefore (month : Int) : Int :=
  match month with
  | 1 => 0
  | 2 => 31
  | 3 => 59
  | 4 => 90
  | 5 => 120
  | 6 => 151
  | 7 => 181
  | 8 => 212
  | 9 => 243
  | 10 => 273
  | 11 => 304
  | _ => 334

/-- Go `Date(year, month, day, 0, 0, 0, 0, UTC)` for a month in 1..12 and a day of that
month: midnight UTC of the day, counted in days from Jan 1 year 1 through the cycles
of 400, 100 and 4 years. -/
def dateUTC (year month day : Int) : Time :=
  let y := year - 1
  let d := 146097 * (y / 400) + 36524 * (y % 400 / 100) + 1461 * (y % 400 % 100 / 4) +
    365 * (y % 400 % 100 % 4) + daysBefore month +
    (if isLeap year ∧ month ≥ 3 then 1 else 0) + (day - 1)
  { wall := 0, ext := d * 86400 }

/-- Value of a decimal digit character, `none` for any other character. -/
def digitVal (c : Char) : Option Int :=
  if '0' ≤ c ∧ c ≤ '9' then some ((c.toNat - '0'.toNat : Nat) : Int) else none

/-- Go `time.Parse("2006-01-02", value)`: four digits, `-`, two digits, `-`, two digits
and nothing else, with the month in 1..12 and the day within the month; `none` stands
for a parse error. -/
def parseDate (value : String) : Option Time :=
  match value.data with
  | [y1, y2, y3, y4, '-', m1, m2, '-', d1, d2] =>
    match digitVal y1, digitVal y2, digitVal y3, digitVal y4,
      digitVal m1, digitVal m2, digitVal d1, digitVal d2 with
    | some a, some b, some c, some d, some e, some f, some g, some h =>
      let year := a * 1000 + b * 100 + c * 10 + d
      let month := e * 10 + f
      let day := g * 10 + h
      if month ≤ 0 ∨ 12 < month then none
      else if day < 1 ∨ day > daysIn month year then none
      else some (dateUTC year month day)
    | _, _, _, _, _, _, _, _ => none
  | _ => none

end time

/-! ## Package `main` -/

namespace main

open time app

structure rawInputs where
  Repo : String
  From : String
  To : String
  Weeks : Int
  Months : Int
  Years : Int
  All : Bool
deriving DecidableEq, Repr

structure processedInputs where
  Owner : String
  Repo : String
  From : Time
  To : Time
  All : Bool
deriving DecidableEq, Repr

/-- The zero value `processedInputs{}`. -/
def zeroProcessedInputs : processedInputs :=
  { Owner := "", Repo := "", From := zeroTime, To := zeroTime, All := false }

def errCombination : String := "[processInput] invalid combination of date range arguments"

def errRepo : String :=
  "[processInput] invalid argument. repo should be given in the form <owner>/<repo>"

def errFrom : String := "[processInput] invalid `from` value provided. Format: YYYY-MM-DD"

def errTo : String := "[processInput] invalid `to` value provided. Format: YYYY-MM-DD"

/-- Go `processInput`. The library calls are arguments: `parse` is
`time.Parse("2006-01-02", ·)` (`none` for an error), `addDate` is `Time.AddDate`, and
`now1`, `now2` are the values of the first and of the second `time.Now()`. The result
is the pair the Go function returns. -/
def processInput (parse : String → Option Time) (addDate : Time → Int → Int → Int → Time)
    (now1 now2 : Time) (p : rawInputs) : processedInputs × Option String :=
  if (p.From ≠ "" ∨ p.To ≠ "") ∧ (p.Weeks ≠ 0 ∨ p.Months ≠ 0 ∨ p.Years ≠ 0) then
    (zeroProcessedInputs, some errCombination)
  else
    match strings.Split p.Repo with
    | [repoOwner, repoName] =>
      match (if p.From ≠ "" then parse p.From else some zeroTime) with
      | none => (zeroProcessedInputs, some errFrom)
      | some from1 =>
        match (if p.To ≠ "" then parse p.To else some now1) with
        | none => (zeroProcessedInputs, some errTo)
        | some to1 =>
          let from2 :=
            if p.Weeks ≠ 0 ∨ p.Months ≠ 0 ∨ p.Years ≠ 0 then
              addDate now2 (wrapInt64 (-p.Years)) (wrapInt64 (-p.Months))
                (wrapInt64 (-wrapInt64 (p.Weeks * 7)))
            else from1
          ({ Owner := repoOwner, Repo := repoName, From := from2, To := to1, All := p.All },
            none)
    | _ => (zeroProcessedInputs, some errRepo)

/-- Lines 48 to 64 of Go `main`: from the processed inputs and the records `gcs` returned
by the source, the list handed to `printStats`, or the message given to `log.Fatal`.
`nowN` is the `time.Now()` of the normalisation, `nowV1` and `nowV2` those of the
validation. -/
def mainSummaries (inputs : processedInputs) (gcs : List github.ContributorStats)
    (nowN nowV1 nowV2 : Time) : Except String (List Contributor) :=
  let opts := NormaliseCalcContributionsOpts { From := inputs.From, To := inputs.To } nowN
  match ValidateCalcContributionsOpts opts nowV1 nowV2 with
  | some err => Except.error err
  | none =>
    let acs := gcs.foldl (fun acs gc => acs ++ [CalcContributions gc opts]) []
    let acs :=
      if !inputs.All then FilterContributors acs (fun ac => decide (ac.Stats.Commits > 0))
      else acs
    Except.ok acs

end main

end GhContribStats

/-! # Theorems -/

namespace GhContribStats

open time app main

/-! ## Machine integers -/

theorem wrapInt64_of_inInt64 (x : Int) (h : InInt64 x) : wrapInt64 x = x := by
  unfold InInt64 at h
  unfold wrapInt64
  rw [Int.emod_eq_of_lt (by omega) (by omega)]
  omega

theorem wrapInt64_inInt64 (x : Int) : InInt64 (wrapInt64 x) := by
  unfold InInt64 wrapInt64
  have h1 := Int.emod_nonneg (x + 2 ^ 63) (show (2 : Int) ^ 64 ≠ 0 by norm_num)
  have h2 := Int.emod_lt_of_pos (x + 2 ^ 63) (show (0 : Int) < 2 ^ 64 by norm_num)
  constructor <;> omega

theorem wrapInt64_add_wrapInt64 (a b : Int) : wrapInt64 (wrapInt64 a + b) = wrapInt64 (a + b) := by
  unfold wrapInt64
  have : ((a + 2 ^ 63) % 2 ^ 64 - 2 ^ 63 + b + 2 ^ 63) = ((a + 2 ^ 63) % 2 ^ 64 + b) := by ring
  rw [this, Int.emod_add_emod]
  congr 2
  ring

theorem wrapInt64_zero : wrapInt64 0 = 0 := by decide

/-! ## Time values -/

theorem Unix_zero_nsec (sec : Int) :
    Unix sec 0 = { wall := 0, ext := wrapInt64 (sec + unixToInternal) } := by
  simp [Unix, unixTime]

theorem nsec_nonneg (t : Time) : 0 ≤ t.nsec := by
  unfold Time.nsec
  exact Int.ofNat_nonneg _

theorem sec_Unix (sec : Int) : (Unix sec 0).sec = wrapInt64 (sec + unixToInternal) := by
  simp [Unix_zero_nsec, Time.sec]

theorem nsec_Unix (sec : Int) : (Unix sec 0).nsec = 0 := by
  simp [Unix_zero_nsec, Time.nsec]

/-- Against a time made by `time.Unix(sec, 0)`, which carries no monotonic reading,
`Equal` or `After` is the wall-clock order "at or after". -/
theorem equal_or_after_Unix (t : Time) (sec : Int) :
    (t.Equal (Unix sec 0) || (Unix sec 0).After t) = true ↔ t.instLE (Unix sec 0) := by
  have hn := nsec_nonneg t
  have h1 := sec_Unix sec
  have h2 := nsec_Unix sec
  simp only [Time.Equal, Time.After, Time.instLE, h1, h2]
  simp only [Unix_zero_nsec, Nat.and_zero, Nat.zero_and, ne_eq, not_true_eq_false, if_false,
    Bool.or_eq_true, Bool.and_eq_true, decide_eq_true_eq]
  constructor
  · rintro (⟨a, b⟩ | a | ⟨a, b⟩)
    · right; exact ⟨a, by omega⟩
    · left; omega
    · omega
  · rintro (a | ⟨a, b⟩)
    · right; left; omega
    · left; exact ⟨a, by omega⟩

/-- A time made by `time.Unix(sec, 0)` is `Before` another time exactly when it is
strictly earlier in wall-clock order. -/
theorem Unix_before (sec : Int) (u : Time) :
    (Unix sec 0).Before u = true ↔ (Unix sec 0).instLT u := by
  have h1 := sec_Unix sec
  have h2 := nsec_Unix sec
  simp only [Time.Before, Time.instLT, h1, h2]
  simp only [Unix_zero_nsec, Nat.and_zero, Nat.zero_and, ne_eq, not_true_eq_false, if_false,
    Bool.or_eq_true, Bool.and_eq_true, decide_eq_true_eq]

theorem weekSelected_iff (o : CalcContrbutionsOpts) (w : github.Week) :
    weekSelected o w = true ↔ InRange o w := by
  unfold weekSelected InRange
  simp only [Bool.and_eq_true]
  rw [equal_or_after_Unix, Unix_before]

theorem weekSelected_eq_decide (o : CalcContrbutionsOpts) (w : github.Week) :
    weekSelected o w = decide (InRange o w) := by
  by_cases h : InRange o w
  · simp [h, (weekSelected_iff o w).mpr h]
  · have : weekSelected o w = false := by
      cases hw : weekSelected o w
      · rfl
      · exact absurd ((weekSelected_iff o w).mp hw) h
    simp [h, this]

/-! ## The aggregation loop -/

theorem bucketsInRange_cons (o : CalcContrbutionsOpts) (w : github.Week)
    (ws : List github.Week) :
    bucketsInRange o (w :: ws) =
      if weekSelected o w then w :: bucketsInRange o ws else bucketsInRange o ws := by
  unfold bucketsInRange
  rw [List.filter_cons, weekSelected_eq_decide]

/-- The loop started from totals `a`, `d`, `c` (reduced to the `int` range) ends with
these totals increased by the sums over the buckets in range. -/
theorem foldl_calcStep (o : CalcContrbutionsOpts) (ws : List github.Week) (name : String)
    (a d c : Int) :
    ws.foldl (calcStep o)
        { Name := name,
          Stats := { Additions := wrapInt64 a, Deletions := wrapInt64 d, Commits := wrapInt64 c } } =
      { Name := name,
        Stats :=
          { Additions := wrapInt64 (a + ((bucketsInRange o ws).map (fun w => w.Additions)).sum),
            Deletions := wrapInt64 (d + ((bucketsInRange o ws).map (fun w => w.Deletions)).sum),
            Commits := wrapInt64 (c + ((bucketsInRange o ws).map (fun w => w.Commits)).sum) } } := by
  induction ws generalizing a d c with
  | nil => simp [bucketsInRange]
  | cons w ws ih =>
    rw [List.foldl_cons, bucketsInRange_cons]
    by_cases h : weekSelected o w = true
    · simp only [calcStep, h, if_true, addInt, wrapInt64_add_wrapInt64]
      rw [ih]
      simp only [List.map_cons, List.sum_cons, add_assoc]
    · simp only [calcStep, h, if_false, Bool.false_eq_true]
      rw [ih]

/-- Closed form of `CalcContributions`: the login and the totals of the specification. -/
theorem CalcContributions_eq (c : github.ContributorStats) (o : CalcContrbutionsOpts) :
    CalcContributions c o = { Name := c.Author.Login, Stats := specTotals o c.Weeks } := by
  unfold CalcContributions specTotals sumInt
  have h := foldl_calcStep o c.Weeks c.Author.Login 0 0 0
  simp only [wrapInt64_zero, zero_add] at h
  exact h

/-- With no monotonic reading shared by the two bounds, a range accepted by the validator
has `From` strictly before `To` in wall-clock order. -/
theorem validated_instLT (o : CalcContrbutionsOpts) (now1 now2 : Time)
    (hm : o.From.wall &&& o.To.wall &&& hasMonotonic = 0)
    (hv : ValidateCalcContributionsOpts o now1 now2 = none) : o.From.instLT o.To := by
  unfold ValidateCalcContributionsOpts at hv
  split at hv
  · exact absurd hv (by simp)
  · rename_i h
    simp only [Bool.or_eq_true, not_or, Bool.not_eq_true] at h
    obtain ⟨⟨⟨he, ha⟩, _⟩, _⟩ := h
    simp only [Time.Equal, Time.After, hm, ne_eq, not_true_eq_false, if_false, Bool.and_eq_false_iff,
      Bool.or_eq_false_iff, decide_eq_false_iff_not] at he ha
    unfold Time.instLT
    omega

/-! ## Claims on the aggregation -/

/-- C1: for every contributor record and every range, `CalcContributions` returns the
login of the record as `Name`, and as `Additions`, `Deletions` and `Commits` the sum of
that counter over exactly the buckets whose week-start instant `w` has `From ≤ w` and
`w < To` (a list filter: each such bucket once per occurrence, the others not at all,
whatever the order). The sums are sums of Go `int`: the integer sum reduced to 64 bits,
which is the integer sum itself whenever that fits. -/
theorem calcContributions_sums_buckets_in_range (c : github.ContributorStats)
    (o : CalcContrbutionsOpts) :
    (CalcContributions c o).Name = c.Author.Login ∧
    (CalcContributions c o).Stats.Additions =
      sumInt ((c.Weeks.filter (fun w => decide (o.From.instLE (Unix w.WeekBeginning 0) ∧
        (Unix w.WeekBeginning 0).instLT o.To))).map (fun w => w.Additions)) ∧
    (CalcContributions c o).Stats.Deletions =
      sumInt ((c.Weeks.filter (fun w => decide (o.From.instLE (Unix w.WeekBeginning 0) ∧
        (Unix w.WeekBeginning 0).instLT o.To))).map (fun w => w.Deletions)) ∧
    (CalcContributions c o).Stats.Commits =
      sumInt ((c.Weeks.filter (fun w => decide (o.From.instLE (Unix w.WeekBeginning 0) ∧
        (Unix w.WeekBeginning 0).instLT o.To))).map (fun w => w.Commits)) ∧
    (InInt64 ((bucketsInRange o c.Weeks).map (fun w => w.Additions)).sum →
      (CalcContributions c o).Stats.Additions =
        ((bucketsInRange o c.Weeks).map (fun w => w.Additions)).sum) ∧
    (InInt64 ((bucketsInRange o c.Weeks).map (fun w => w.Deletions)).sum →
      (CalcContributions c o).Stats.Deletions =
        ((bucketsInRange o c.Weeks).map (fun w => w.Deletions)).sum) ∧
    (InInt64 ((bucketsInRange o c.Weeks).map (fun w => w.Commits)).sum →
      (CalcContributions c o).Stats.Commits =
        ((bucketsInRange o c.Weeks).map (fun w => w.Commits)).sum) := by
  rw [CalcContributions_eq]
  refine ⟨rfl, rfl, rfl, rfl, ?_, ?_, ?_⟩ <;> intro h <;>
    simp only [specTotals, sumInt] <;> exact wrapInt64_of_inInt64 _ h

/-- The end-to-end example of the specification: the buckets of 2018-06-11 and
2018-06-18 against the range from 2018-06-18 to 2018-06-25 give the totals of the
second bucket alone. -/
theorem calcContributions_sums_buckets_in_range_witness :
    (CalcContributions
        { Author := { Login := "Luke-Davies" },
          Weeks :=
            [{ WeekBeginning := 1528675200, Additions := 55, Deletions := 44, Commits := 3 },
             { WeekBeginning := 1529280000, Additions := 33, Deletions := 22, Commits := 7 }] }
        { From := dateUTC 2018 6 18, To := dateUTC 2018 6 25 }).Stats.Additions = 33 ∧
    (CalcContributions
        { Author := { Login := "Luke-Davies" },
          Weeks :=
            [{ WeekBeginning := 1528675200, Additions := 55, Deletions := 44, Commits := 3 },
             { WeekBeginning := 1529280000, Additions := 33, Deletions := 22, Commits := 7 }] }
        { From := dateUTC 2018 6 18, To := dateUTC 2018 6 25 }).Stats.Deletions = 22 ∧
    (CalcContributions
        { Author := { Login := "Luke-Davies" },
          Weeks :=
            [{ WeekBeginning := 1528675200, Additions := 55, Deletions := 44, Commits := 3 },
             { WeekBeginning := 1529280000, Additions := 33, Deletions := 22, Commits := 7 }] }
        { From := dateUTC 2018 6 18, To := dateUTC 2018 6 25 }).Stats.Commits = 7 := by
  obtain ⟨_, _, _, _, ha, hd, hc⟩ := calcContributions_sums_buckets_in_range
    { Author := { Login := "Luke-Davies" },
      Weeks :=
        [{ WeekBeginning := 1528675200, Additions := 55, Deletions := 44, Commits := 3 },
         { WeekBeginning := 1529280000, Additions := 33, Deletions := 22, Commits := 7 }] }
    { From := dateUTC 2018 6 18, To := dateUTC 2018 6 25 }
  exact ⟨(ha (by decide)).trans (by decide), (hd (by decide)).trans (by decide),
    (hc (by decide)).trans (by decide)⟩

/-- C2: the range is closed below and open above. For a range with `From` strictly
before `To`, a bucket appended to the record whose week starts exactly at `From` adds
its additions, deletions and commits to the three totals (Go `int` additions), and a
bucket appended whose week starts exactly at `To` leaves the result unchanged. -/
theorem calcContributions_range_closed_below_open_above (c : github.ContributorStats)
    (o : CalcContrbutionsOpts) (b : github.Week) (hlt : o.From.instLT o.To) :
    (o.From.Equal (Unix b.WeekBeginning 0) = true →
      CalcContributions { Author := c.Author, Weeks := c.Weeks ++ [b] } o =
        { Name := (CalcContributions c o).Name,
          Stats :=
            { Additions := addInt (CalcContributions c o).Stats.Additions b.Additions,
              Deletions := addInt (CalcContributions c o).Stats.Deletions b.Deletions,
              Commits := addInt (CalcContributions c o).Stats.Commits b.Commits } }) ∧
    ((Unix b.WeekBeginning 0).Equal o.To = true →
      CalcContributions { Author := c.Author, Weeks := c.Weeks ++ [b] } o =
        CalcContributions c o) := by
  have hstep : CalcContributions { Author := c.Author, Weeks := c.Weeks ++ [b] } o =
      calcStep o (CalcContributions c o) b := by
    simp [CalcContributions, List.foldl_append]
  have h1 := sec_Unix b.WeekBeginning
  have h2 := nsec_Unix b.WeekBeginning
  have hn := nsec_nonneg o.From
  constructor
  · intro heq
    have hsel : weekSelected o b = true := by
      rw [weekSelected_iff]
      simp only [Time.Equal, Unix_zero_nsec, Nat.and_zero, Nat.zero_and, ne_eq,
        not_true_eq_false, if_false, Bool.and_eq_true, decide_eq_true_eq] at heq
      rw [← Unix_zero_nsec] at heq
      unfold InRange Time.instLE Time.instLT
      unfold Time.instLT at hlt
      omega
    rw [hstep]
    simp [calcStep, hsel]
  · intro heq
    have hsel : weekSelected o b = false := by
      rw [weekSelected_eq_decide, decide_eq_false_iff_not]
      simp only [Time.Equal, Unix_zero_nsec, Nat.and_zero, Nat.zero_and, ne_eq,
        not_true_eq_false, if_false, Bool.and_eq_true, decide_eq_true_eq] at heq
      rw [← Unix_zero_nsec] at heq
      unfold InRange Time.instLE Time.instLT
      omega
    rw [hstep]
    simp [calcStep, hsel]

/-- The appended bucket of 2018-06-18 starts exactly at `From` and is counted; the
appended bucket of 2018-06-25 starts exactly at `To` and is not. -/
theorem calcContributions_range_closed_below_open_above_witness :
    (dateUTC 2018 6 18).instLT (dateUTC 2018 6 25) ∧
    CalcContributions
        { Author := { Login := "Luke-Davies" },
          Weeks :=
            [{ WeekBeginning := 1528675200, Additions := 55, Deletions := 44, Commits := 3 }] ++
              [{ WeekBeginning := 1529280000, Additions := 33, Deletions := 22, Commits := 7 }] }
        { From := dateUTC 2018 6 18, To := dateUTC 2018 6 25 } =
      { Name := "Luke-Davies", Stats := { Additions := 33, Deletions := 22, Commits := 7 } } ∧
    CalcContributions
        { Author := { Login := "Luke-Davies" },
          Weeks :=
            [{ WeekBeginning := 1528675200, Additions := 55, Deletions := 44, Commits := 3 }] ++
              [{ WeekBeginning := 1529884800, Additions := 33, Deletions := 22, Commits := 7 }] }
        { From := dateUTC 2018 6 18, To := dateUTC 2018 6 25 } =
      { Name := "Luke-Davies", Stats := { Additions := 0, Deletions := 0, Commits := 0 } } :=
  ⟨by decide,
    ((calcContributions_range_closed_below_open_above
      { Author := { Login := "Luke-Davies" },
        Weeks := [{ WeekBeginning := 1528675200, Additions := 55, Deletions := 44, Commits := 3 }] }
      { From := dateUTC 2018 6 18, To := dateUTC 2018 6 25 }
      { WeekBeginning := 1529280000, Additions := 33, Deletions := 22, Commits := 7 }
      (by decide)).1 (by decide)).trans (by decide),
    ((calcContributions_range_closed_below_open_above
      { Author := { Login := "Luke-Davies" },
        Weeks := [{ WeekBeginning := 1528675200, Additions := 55, Deletions := 44, Commits := 3 }] }
      { From := dateUTC 2018 6 18, To := dateUTC 2018 6 25 }
      { WeekBeginning := 1529884800, Additions := 33, Deletions := 22, Commits := 7 }
      (by decide)).2 (by decide)).trans (by decide)⟩

/-- C3: order independence. Two records with the same login whose bucket lists are
permutations of one another give the same `Contributor` for every range. -/
theorem calcContributions_order_independent (c1 c2 : github.ContributorStats)
    (o : CalcContrbutionsOpts) (hlogin : c1.Author.Login = c2.Author.Login)
    (hperm : c1.Weeks.Perm c2.Weeks) :
    CalcContributions c1 o = CalcContributions c2 o := by
  rw [CalcContributions_eq, CalcContributions_eq, hlogin]
  have hf : (bucketsInRange o c1.Weeks).Perm (bucketsInRange o c2.Weeks) := hperm.filter _
  simp only [specTotals, sumInt, (hf.map _).sum_eq]

/-- The four buckets of the test record in source order and in another order, against
a range that holds the two middle ones. -/
theorem calcContributions_order_independent_witness :
    CalcContributions
        { Author := { Login := "Luke-Davies" },
          Weeks :=
            [{ WeekBeginning := 1527984000, Additions := 10, Deletions := 12, Commits := 3 },
             { WeekBeginning := 1528588800, Additions := 11, Deletions := 14, Commits := 2 },
             { WeekBeginning := 1529193600, Additions := 55, Deletions := 44, Commits := 3 },
             { WeekBeginning := 1529798400, Additions := 33, Deletions := 22, Commits := 7 }] }
        { From := dateUTC 2018 6 10, To := dateUTC 2018 6 23 } =
      CalcContributions
        { Author := { Login := "Luke-Davies" },
          Weeks :=
            [{ WeekBeginning := 1528588800, Additions := 11, Deletions := 14, Commits := 2 },
             { WeekBeginning := 1527984000, Additions := 10, Deletions := 12, Commits := 3 },
             { WeekBeginning := 1529798400, Additions := 33, Deletions := 22, Commits := 7 },
             { WeekBeginning := 1529193600, Additions := 55, Deletions := 44, Commits := 3 }] }
        { From := dateUTC 2018 6 10, To := dateUTC 2018 6 23 } ∧
    (CalcContributions
        { Author := { Login := "Luke-Davies" },
          Weeks :=
            [{ WeekBeginning := 1528588800, Additions := 11, Deletions := 14, Commits := 2 },
             { WeekBeginning := 1527984000, Additions := 10, Deletions := 12, Commits := 3 },
             { WeekBeginning := 1529798400, Additions := 33, Deletions := 22, Commits := 7 },
             { WeekBeginning := 1529193600, Additions := 55, Deletions := 44, Commits := 3 }] }
        { From := dateUTC 2018 6 10, To := dateUTC 2018 6 23 }).Stats =
      { Additions := 66, Deletions := 58, Commits := 5 } :=
  ⟨calcContributions_order_independent _ _ _ rfl
      ((List.Perm.swap _ _ _).trans (List.Perm.cons _ (List.Perm.cons _ (List.Perm.swap _ _ _)))),
    by decide⟩

/-! ## The zero value as lower bound -/

/-- The epoch seconds that `time.Unix` maps to the zero instant or later, without
leaving the `int64` range of the seconds since year 1, give a week start that the zero
`From` does not exclude. -/
theorem zeroTime_instLE_Unix (sec : Int) (h1 : -62135596800 ≤ sec)
    (h2 : sec < 2 ^ 63 - 62135596800) : zeroTime.instLE (Unix sec 0) := by
  have hs := sec_Unix sec
  have hn := nsec_Unix sec
  have hw : wrapInt64 (sec + unixToInternal) = sec + unixToInternal :=
    wrapInt64_of_inInt64 _ (by unfold InInt64 unixToInternal; constructor <;> omega)
  have hz : zeroTime.sec = 0 := by decide
  have hzn : zeroTime.nsec = 0 := by decide
  unfold Time.instLE
  rw [hs, hn, hw, hz, hzn]
  unfold unixToInternal
  omega

/-- C4, as stated, fails: a bucket whose week starts one second before Jan 1 year 1
(epoch seconds -62135596801) is strictly before `To` = 1970-01-01, so the claim counts
its 5 additions, 3 deletions and 1 commit, while `CalcContributions` with the zero
`From` leaves it out and returns zero totals. -/
theorem zero_from_leaves_out_bucket_before_year_one :
    (Unix (-62135596801) 0).instLT (Unix 0 0) ∧
    sumInt ((([{ WeekBeginning := -62135596801, Additions := 5, Deletions := 3, Commits := 1 }] :
      List github.Week).filter
        (fun w => decide ((Unix w.WeekBeginning 0).instLT (Unix 0 0)))).map
          (fun w => w.Additions)) = 5 ∧
    (CalcContributions
        { Author := { Login := "a" },
          Weeks := [{ WeekBeginning := -62135596801, Additions := 5, Deletions := 3, Commits := 1 }] }
        { From := zeroTime, To := Unix 0 0 }).Stats =
      { Additions := 0, Deletions := 0, Commits := 0 } := by
  decide

/-- C4, amended: with `From` the zero time value, for every record and every `To` the
totals are the sums over the buckets whose week start is at or after the zero instant
(0001-01-01 00:00:00 UTC) and strictly before `To`; so for every record whose buckets
all start at or after the zero instant, the totals are the sums over all buckets whose
week start is strictly before `To`. -/
theorem calcContributions_zero_from (c : github.ContributorStats) (t : Time) :
    CalcContributions c { From := zeroTime, To := t } =
      { Name := c.Author.Login,
        Stats :=
          { Additions := sumInt ((c.Weeks.filter (fun w =>
              decide (zeroTime.instLE (Unix w.WeekBeginning 0) ∧
                (Unix w.WeekBeginning 0).instLT t))).map (fun w => w.Additions)),
            Deletions := sumInt ((c.Weeks.filter (fun w =>
              decide (zeroTime.instLE (Unix w.WeekBeginning 0) ∧
                (Unix w.WeekBeginning 0).instLT t))).map (fun w => w.Deletions)),
            Commits := sumInt ((c.Weeks.filter (fun w =>
              decide (zeroTime.instLE (Unix w.WeekBeginning 0) ∧
                (Unix w.WeekBeginning 0).instLT t))).map (fun w => w.Commits)) } } ∧
    ((∀ w ∈ c.Weeks, zeroTime.instLE (Unix w.WeekBeginning 0)) →
      CalcContributions c { From := zeroTime, To := t } =
        { Name := c.Author.Login,
          Stats :=
            { Additions := sumInt ((c.Weeks.filter (fun w =>
                decide ((Unix w.WeekBeginning 0).instLT t))).map (fun w => w.Additions)),
              Deletions := sumInt ((c.Weeks.filter (fun w =>
                decide ((Unix w.WeekBeginning 0).instLT t))).map (fun w => w.Deletions)),
              Commits := sumInt ((c.Weeks.filter (fun w =>
                decide ((Unix w.WeekBeginning 0).instLT t))).map (fun w => w.Commits)) } }) := by
  refine ⟨CalcContributions_eq c _, fun h => ?_⟩
  have hf : bucketsInRange { From := zeroTime, To := t } c.Weeks =
      c.Weeks.filter (fun w => decide ((Unix w.WeekBeginning 0).instLT t)) := by
    unfold bucketsInRange
    apply List.filter_congr
    intro w hw
    simp only [InRange, h w hw, true_and]
  rw [CalcContributions_eq]
  unfold specTotals
  rw [hf]

/-- The "Full Range" case of the test-suite: the four buckets of the test record, all
of June 2018, with the zero `From` and `To` = 2018-07-24, give 109, 92 and 15. -/
theorem calcContributions_zero_from_witness :
    CalcContributions
        { Author := { Login := "Luke-Davies" },
          Weeks :=
            [{ WeekBeginning := 1527984000, Additions := 10, Deletions := 12, Commits := 3 },
             { WeekBeginning := 1528588800, Additions := 11, Deletions := 14, Commits := 2 },
             { WeekBeginning := 1529193600, Additions := 55, Deletions := 44, Commits := 3 },
             { WeekBeginning := 1529798400, Additions := 33, Deletions := 22, Commits := 7 }] }
        { From := zeroTime, To := dateUTC 2018 7 24 } =
      { Name := "Luke-Davies", Stats := { Additions := 109, Deletions := 92, Commits := 15 } } :=
  ((calcContributions_zero_from
      { Author := { Login := "Luke-Davies" },
        Weeks :=
          [{ WeekBeginning := 1527984000, Additions := 10, Deletions := 12, Commits := 3 },
           { WeekBeginning := 1528588800, Additions := 11, Deletions := 14, Commits := 2 },
           { WeekBeginning := 1529193600, Additions := 55, Deletions := 44, Commits := 3 },
           { WeekBeginning := 1529798400, Additions := 33, Deletions := 22, Commits := 7 }] }
      (dateUTC 2018 7 24)).2 (by decide)).trans (by decide)

/-! ## Validation and normalisation of the range -/

/-- Of two time values exactly one of `Before`, `Equal`, `After` holds; here: neither
`Equal` nor `After` is the same as `Before`. -/
theorem before_iff_not_equal_not_after (t u : Time) :
    t.Before u = true ↔ t.Equal u = false ∧ t.After u = false := by
  unfold Time.Before Time.Equal Time.After
  by_cases hm : t.wall &&& u.wall &&& hasMonotonic ≠ 0
  · rw [if_pos hm, if_pos hm, if_pos hm]
    simp only [decide_eq_true_eq, decide_eq_false_iff_not]
    omega
  · rw [if_neg hm, if_neg hm, if_neg hm]
    simp only [Bool.or_eq_true, Bool.and_eq_true, decide_eq_true_eq,
      Bool.and_eq_false_iff, Bool.or_eq_false_iff, decide_eq_false_iff_not]
    omega

theorem equal_self (t : Time) : t.Equal t = true := by
  unfold Time.Equal
  split <;> simp

/-- C5: with the instants read from the clock made explicit (`now1` for the test of
`From`, `now2` for the test of `To`; the claim is the case `now1 = now2`), the
validator returns its error exactly when `From` equals `To`, or `From` is after `To`,
or `From` is after now, or `To` is after now; it returns nil exactly when `From` is
before `To` and neither bound is after now; it returns nothing else; and it fails for
every pair `{From: X, To: X}`. -/
theorem validate_error_iff (o : CalcContrbutionsOpts) (now1 now2 : Time) :
    (ValidateCalcContributionsOpts o now1 now2 = some invalidRangeMsg ↔
      (o.From.Equal o.To = true ∨ o.From.After o.To = true ∨ o.From.After now1 = true ∨
        o.To.After now2 = true)) ∧
    (ValidateCalcContributionsOpts o now1 now2 = none ↔
      (o.From.Before o.To = true ∧ o.From.After now1 = false ∧ o.To.After now2 = false)) ∧
    (ValidateCalcContributionsOpts o now1 now2 = none ∨
      ValidateCalcContributionsOpts o now1 now2 = some invalidRangeMsg) ∧
    (∀ x : Time, ValidateCalcContributionsOpts { From := x, To := x } now1 now2 =
      some invalidRangeMsg) := by
  have hb := before_iff_not_equal_not_after o.From o.To
  refine ⟨?_, ?_, ?_, ?_⟩
  · unfold ValidateCalcContributionsOpts
    by_cases h : (o.From.Equal o.To || o.From.After o.To || o.From.After now1 ||
        o.To.After now2) = true
    · simp only [h, if_true, true_iff]
      simpa only [Bool.or_eq_true, or_assoc] using h
    · simp only [h, if_false, Bool.false_eq_true, false_iff, reduceCtorEq]
      simpa only [Bool.or_eq_true, or_assoc] using h
  · unfold ValidateCalcContributionsOpts
    by_cases h : (o.From.Equal o.To || o.From.After o.To || o.From.After now1 ||
        o.To.After now2) = true
    · simp only [h, if_true, false_iff, reduceCtorEq]
      simp only [Bool.or_eq_true] at h
      rw [hb]
      intro hc
      simp [hc.1.1, hc.1.2, hc.2.1, hc.2.2] at h
    · simp only [h, if_false, Bool.false_eq_true, true_iff]
      simp only [Bool.or_eq_true, not_or, Bool.not_eq_true] at h
      rw [hb]
      exact ⟨⟨h.1.1.1, h.1.1.2⟩, h.1.2, h.2⟩
  · unfold ValidateCalcContributionsOpts
    split
    · right; rfl
    · left; rfl
  · intro x
    unfold ValidateCalcContributionsOpts
    simp [equal_self]

/-- C6: normalisation is a total function of the options and of the instant `now`; it
returns `From` as given (the zero value included), `To` = `now` when the given `To` is
the zero value and the given `To` otherwise, so the returned `To` is not the zero value
whenever `now` is not. -/
theorem normalise_keeps_from_sets_to (o : CalcContrbutionsOpts) (now : Time) :
    (NormaliseCalcContributionsOpts o now).From = o.From ∧
    (o.To.IsZero = true → (NormaliseCalcContributionsOpts o now).To = now) ∧
    (o.To.IsZero = false → (NormaliseCalcContributionsOpts o now).To = o.To) ∧
    (now.IsZero = false → (NormaliseCalcContributionsOpts o now).To.IsZero = false) ∧
    NormaliseCalcContributionsOpts { From := zeroTime, To := o.To } now =
      { From := zeroTime, To := (NormaliseCalcContributionsOpts o now).To } := by
  unfold NormaliseCalcContributionsOpts
  refine ⟨rfl, ?_, ?_, ?_, rfl⟩
  · intro h
    simp [h]
  · intro h
    simp [h]
  · intro h
    by_cases hz : o.To.IsZero = true
    · simp [hz, h]
    · simp only [hz, if_false, Bool.false_eq_true]

/-- The two cases of the test-suite: set bounds come back unchanged, and the all-unset
options come back with the zero `From` and `To` = now. -/
theorem normalise_keeps_from_sets_to_witness :
    NormaliseCalcContributionsOpts { From := dateUTC 2018 6 16, To := dateUTC 2018 6 16 }
        (dateUTC 2018 7 24) = { From := dateUTC 2018 6 16, To := dateUTC 2018 6 16 } ∧
    NormaliseCalcContributionsOpts { From := zeroTime, To := zeroTime } (dateUTC 2018 7 24) =
      { From := zeroTime, To := dateUTC 2018 7 24 } := by
  obtain ⟨h1, _, h3, _, _⟩ := normalise_keeps_from_sets_to
    { From := dateUTC 2018 6 16, To := dateUTC 2018 6 16 } (dateUTC 2018 7 24)
  obtain ⟨k1, k2, _, _, _⟩ := normalise_keeps_from_sets_to
    { From := zeroTime, To := zeroTime } (dateUTC 2018 7 24)
  exact ⟨congrArg₂ CalcContrbutionsOpts.mk h1 (h3 (by decide)),
    congrArg₂ CalcContrbutionsOpts.mk k1 (k2 (by decide))⟩

/-! ## Filtering and the aggregation pipeline -/

/-- The loop of `FilterContributors` started from any `res` appends the kept elements. -/
theorem foldl_filter_step (cs : List Contributor) (f : Contributor → Bool)
    (res : List Contributor) :
    cs.foldl (fun res c => if f c then res ++ [c] else res) res = res ++ cs.filter f := by
  induction cs generalizing res with
  | nil => simp
  | cons c cs ih =>
    rw [List.foldl_cons, ih]
    by_cases h : f c = true
    · simp [h, List.filter_cons]
    · simp [h, List.filter_cons]

theorem FilterContributors_eq_filter (cs : List Contributor) (f : Contributor → Bool) :
    FilterContributors cs f = cs.filter f := by
  unfold FilterContributors
  rw [foldl_filter_step]
  rfl

/-- The loop of `main` that collects the summaries started from any `acs` appends one
summary per record, in order. -/
theorem foldl_collect (gcs : List github.ContributorStats) (o : CalcContrbutionsOpts)
    (acs : List Contributor) :
    gcs.foldl (fun acs gc => acs ++ [CalcContributions gc o]) acs =
      acs ++ gcs.map (fun gc => CalcContributions gc o) := by
  induction gcs generalizing acs with
  | nil => simp
  | cons gc gcs ih =>
    rw [List.foldl_cons, ih]
    simp

/-- C7: for every list of contributors and every predicate, `FilterContributors` is the
standard list filter: the elements that satisfy the predicate, in their original
relative order (a sublist), each as often as it occurs in the input, the others not at
all. With the predicate `Commits > 0` the result holds exactly the contributors with a
strictly positive commit total. -/
theorem filterContributors_is_filter (cs : List Contributor) (f : Contributor → Bool) :
    FilterContributors cs f = cs.filter f ∧
    (FilterContributors cs f).Sublist cs ∧
    (∀ c, c ∈ FilterContributors cs f ↔ c ∈ cs ∧ f c = true) ∧
    (∀ c, f c = true → (FilterContributors cs f).count c = cs.count c) ∧
    (∀ c, c ∈ FilterContributors cs (fun ac => decide (ac.Stats.Commits > 0)) ↔
      c ∈ cs ∧ c.Stats.Commits > 0) := by
  refine ⟨FilterContributors_eq_filter cs f, ?_, ?_, ?_, ?_⟩
  · rw [FilterContributors_eq_filter]
    exact List.filter_sublist cs
  · intro c
    rw [FilterContributors_eq_filter, List.mem_filter]
  · intro c hc
    rw [FilterContributors_eq_filter, List.count_filter hc]
  · intro c
    rw [FilterContributors_eq_filter, List.mem_filter]
    simp

/-- The case of the test-suite: of four contributors the three with commits are kept, in
order, and the one with zero commits is dropped. -/
theorem filterContributors_is_filter_witness :
    FilterContributors
        [{ Name := "Luke-Davies", Stats := { Additions := 109, Deletions := 92, Commits := 15 } },
         { Name := "Ron-Swanson", Stats := { Additions := 50, Deletions := 30, Commits := 20 } },
         { Name := "Leslie-Knope", Stats := { Additions := 10, Deletions := 10, Commits := 10 } },
         { Name := "Andy-Dwyer", Stats := { Additions := 0, Deletions := 0, Commits := 0 } }]
        (fun ac => decide (ac.Stats.Commits > 0)) =
      [{ Name := "Luke-Davies", Stats := { Additions := 109, Deletions := 92, Commits := 15 } },
       { Name := "Ron-Swanson", Stats := { Additions := 50, Deletions := 30, Commits := 20 } },
       { Name := "Leslie-Knope", Stats := { Additions := 10, Deletions := 10, Commits := 10 } }] :=
  (filterContributors_is_filter _ _).1.trans (by decide)

/-- C8: when `All` is true the filtering step is skipped and the summaries go to printing
unchanged: if the validation passes, the list handed to printing is the list of
`CalcContributions` of the records, one per record and in the order of the source (so
of the same length, its i-th element the summary of the i-th record, zero-commit
contributors included); if the validation fails there is no list, only its error. -/
theorem mainSummaries_all_unfiltered (inputs : processedInputs)
    (gcs : List github.ContributorStats) (nowN nowV1 nowV2 : Time) (hall : inputs.All = true) :
    (ValidateCalcContributionsOpts
        (NormaliseCalcContributionsOpts { From := inputs.From, To := inputs.To } nowN)
        nowV1 nowV2 = none →
      mainSummaries inputs gcs nowN nowV1 nowV2 =
        Except.ok (gcs.map (fun gc => CalcContributions gc
          (NormaliseCalcContributionsOpts { From := inputs.From, To := inputs.To } nowN))) ∧
      ∃ acs, mainSummaries inputs gcs nowN nowV1 nowV2 = Except.ok acs ∧
        acs.length = gcs.length ∧
        ∀ i : Nat, acs[i]? = (gcs[i]?).map (fun gc => CalcContributions gc
          (NormaliseCalcContributionsOpts { From := inputs.From, To := inputs.To } nowN))) ∧
    (∀ err, ValidateCalcContributionsOpts
        (NormaliseCalcContributionsOpts { From := inputs.From, To := inputs.To } nowN)
        nowV1 nowV2 = some err →
      mainSummaries inputs gcs nowN nowV1 nowV2 = Except.error err) := by
  constructor
  · intro hv
    have hm : mainSummaries inputs gcs nowN nowV1 nowV2 =
        Except.ok (gcs.map (fun gc => CalcContributions gc
          (NormaliseCalcContributionsOpts { From := inputs.From, To := inputs.To } nowN))) := by
      unfold mainSummaries
      simp only [hv, hall, foldl_collect, List.nil_append, Bool.not_true, Bool.false_eq_true,
        if_false]
    refine ⟨hm, _, hm, ?_, ?_⟩
    · simp
    · intro i
      simp
  · intro err hv
    unfold mainSummaries
    simp only [hv]

/-- With `All` set, a record whose buckets all lie outside the range stays in the list
handed to printing, with zero totals, after the record with activity. -/
theorem mainSummaries_all_unfiltered_witness :
    mainSummaries
        { Owner := "test-owner", Repo := "test-repo", From := dateUTC 2018 6 18,
          To := dateUTC 2018 6 25, All := true }
        [{ Author := { Login := "Luke-Davies" },
           Weeks := [{ WeekBeginning := 1529280000, Additions := 33, Deletions := 22, Commits := 7 }] },
         { Author := { Login := "Andy-Dwyer" },
           Weeks := [{ WeekBeginning := 1528675200, Additions := 55, Deletions := 44, Commits := 3 }] }]
        (dateUTC 2018 7 24) (dateUTC 2018 7 24) (dateUTC 2018 7 24) =
      Except.ok
        [{ Name := "Luke-Davies", Stats := { Additions := 33, Deletions := 22, Commits := 7 } },
         { Name := "Andy-Dwyer", Stats := { Additions := 0, Deletions := 0, Commits := 0 } }] :=
  ((mainSummaries_all_unfiltered
      { Owner := "test-owner", Repo := "test-repo", From := dateUTC 2018 6 18,
        To := dateUTC 2018 6 25, All := true }
      [{ Author := { Login := "Luke-Davies" },
         Weeks := [{ WeekBeginning := 1529280000, Additions := 33, Deletions := 22, Commits := 7 }] },
       { Author := { Login := "Andy-Dwyer" },
         Weeks := [{ WeekBeginning := 1528675200, Additions := 55, Deletions := 44, Commits := 3 }] }]
      (dateUTC 2018 7 24) (dateUTC 2018 7 24) (dateUTC 2018 7 24) rfl).1 (by decide)).1.trans
    (congrArg Except.ok (by decide))

/-! ## Splitting the repository argument -/

theorem splitSlash_ne_nil (s : List Char) : strings.splitSlash s ≠ [] := by
  induction s with
  | nil => simp [strings.splitSlash]
  | cons c cs ih =>
    unfold strings.splitSlash
    by_cases h : c = '/'
    · simp [h]
    · simp only [h, if_false]
      cases hs : strings.splitSlash cs with
      | nil => simp
      | cons piece pieces => simp

/-- The number of pieces is the number of separators plus one. -/
theorem splitSlash_length (s : List Char) :
    (strings.splitSlash s).length = s.count '/' + 1 := by
  induction s with
  | nil => simp [strings.splitSlash]
  | cons c cs ih =>
    unfold strings.splitSlash
    by_cases h : c = '/'
    · simp [h, ih]
    · have hc : (c == '/') = false := by simpa using h
      simp only [h, if_false, List.count_cons, hc, Bool.false_eq_true, add_zero]
      cases hs : strings.splitSlash cs with
      | nil => exact absurd hs (splitSlash_ne_nil cs)
      | cons piece pieces =>
        rw [hs] at ih
        simpa using ih

/-- No piece holds a separator. -/
theorem splitSlash_no_slash (s : List Char) :
    ∀ piece ∈ strings.splitSlash s, '/' ∉ piece := by
  induction s with
  | nil => simp [strings.splitSlash]
  | cons c cs ih =>
    unfold strings.splitSlash
    by_cases h : c = '/'
    · simp only [h, if_true, List.mem_cons]
      rintro piece (rfl | hp)
      · simp
      · exact ih piece hp
    · simp only [h, if_false]
      cases hs : strings.splitSlash cs with
      | nil => exact absurd hs (splitSlash_ne_nil cs)
      | cons piece pieces =>
        rw [hs] at ih
        simp only [List.mem_cons]
        rintro q (rfl | hq)
        · have := ih piece (by simp)
          simp only [List.mem_cons, not_or]
          exact ⟨fun e => h e.symm, this⟩
        · exact ih q (by simp [hq])

/-- The pieces joined by the separator give back the string. -/
theorem splitSlash_join (s : List Char) :
    List.intercalate ['/'] (strings.splitSlash s) = s := by
  induction s with
  | nil => simp [strings.splitSlash, List.intercalate]
  | cons c cs ih =>
    unfold strings.splitSlash
    by_cases h : c = '/'
    · simp only [h, if_true]
      cases hs : strings.splitSlash cs with
      | nil => exact absurd hs (splitSlash_ne_nil cs)
      | cons piece pieces =>
        rw [hs] at ih
        rw [← ih]
        simp [List.intercalate]
    · simp only [h, if_false]
      cases hs : strings.splitSlash cs with
      | nil => exact absurd hs (splitSlash_ne_nil cs)
      | cons piece pieces =>
        rw [hs] at ih
        rw [← ih]
        cases pieces <;> simp [List.intercalate]

theorem Split_length (s : String) : (strings.Split s).length = s.data.count '/' + 1 := by
  unfold strings.Split
  rw [List.length_map, splitSlash_length]

/-- When `strings.Split` gives exactly two pieces, neither holds a separator and the
two joined by the separator are the string that was split. -/
theorem Split_two (s owner repo : String) (h : strings.Split s = [owner, repo]) :
    '/' ∉ owner.data ∧ '/' ∉ repo.data ∧ owner ++ "/" ++ repo = s := by
  unfold strings.Split at h
  cases hs : strings.splitSlash s.data with
  | nil => exact absurd hs (splitSlash_ne_nil _)
  | cons a rest =>
    cases rest with
    | nil => rw [hs] at h; simp at h
    | cons b rest2 =>
      cases rest2 with
      | cons c rest3 => rw [hs] at h; simp at h
      | nil =>
        rw [hs] at h
        simp only [List.map_cons, List.map_nil, List.cons.injEq, and_true] at h
        obtain ⟨ha, hb⟩ := h
        have hno := splitSlash_no_slash s.data
        have hj := splitSlash_join s.data
        rw [hs] at hno hj
        subst ha
        subst hb
        refine ⟨hno a (by simp), hno b (by simp), ?_⟩
        apply String.ext
        rw [String.data_append, String.data_append, ← hj]
        simp [List.intercalate]

/-! ## Claims on `processInput` -/

/-- C9: the date-range modes exclude one another. For every raw input (and whatever
the clock and the date parser give), `processInput` returns the error "invalid
combination of date range arguments" exactly when `From` or `To` is non-empty and one
of `Weeks`, `Months`, `Years` is non-zero; in that case, whatever the repository
argument and the date strings are, the result is that error together with the zero
`processedInputs`. -/
theorem processInput_combination_error_iff (parse : String → Option Time)
    (addDate : Time → Int → Int → Int → Time) (now1 now2 : Time) (p : rawInputs) :
    ((processInput parse addDate now1 now2 p).2 = some errCombination ↔
      ((p.From ≠ "" ∨ p.To ≠ "") ∧ (p.Weeks ≠ 0 ∨ p.Months ≠ 0 ∨ p.Years ≠ 0))) ∧
    (((p.From ≠ "" ∨ p.To ≠ "") ∧ (p.Weeks ≠ 0 ∨ p.Months ≠ 0 ∨ p.Years ≠ 0)) →
      processInput parse addDate now1 now2 p = (zeroProcessedInputs, some errCombination)) := by
  have e1 : errRepo ≠ errCombination := by decide
  have e2 : errFrom ≠ errCombination := by decide
  have e3 : errTo ≠ errCombination := by decide
  by_cases h : (p.From ≠ "" ∨ p.To ≠ "") ∧ (p.Weeks ≠ 0 ∨ p.Months ≠ 0 ∨ p.Years ≠ 0)
  · have hp : processInput parse addDate now1 now2 p =
        (zeroProcessedInputs, some errCombination) := by
      unfold processInput
      rw [if_pos h]
    exact ⟨⟨fun _ => h, fun _ => by rw [hp]⟩, fun _ => hp⟩
  · refine ⟨⟨fun hc => ?_, fun hc => absurd hc h⟩, fun hc => absurd hc h⟩
    exfalso
    unfold processInput at hc
    rw [if_neg h] at hc
    split at hc
    · split at hc
      · simp only [Option.some.injEq] at hc
        exact e2 hc
      · split at hc
        · simp only [Option.some.injEq] at hc
          exact e3 hc
        · simp at hc
    · simp only [Option.some.injEq] at hc
      exact e1 hc

/-- The cases "invalid combo" of the test-suite, and an input whose repository argument
and date string are both malformed: the combination error comes first. -/
theorem processInput_combination_error_iff_witness :
    processInput parseDate (fun t _ _ _ => t) (dateUTC 2018 7 24) (dateUTC 2018 7 24)
        { Repo := "test-owner/test-repo", From := "2018-07-24", To := "", Weeks := 1,
          Months := 0, Years := 0, All := false } =
      (zeroProcessedInputs, some errCombination) ∧
    processInput parseDate (fun t _ _ _ => t) (dateUTC 2018 7 24) (dateUTC 2018 7 24)
        { Repo := "test-repo", From := "", To := "blam", Weeks := 0,
          Months := 0, Years := 2, All := true } =
      (zeroProcessedInputs, some errCombination) :=
  ⟨(processInput_combination_error_iff parseDate (fun t _ _ _ => t) (dateUTC 2018 7 24)
      (dateUTC 2018 7 24)
      { Repo := "test-owner/test-repo", From := "2018-07-24", To := "", Weeks := 1,
        Months := 0, Years := 0, All := false }).2 (by decide),
    (processInput_combination_error_iff parseDate (fun t _ _ _ => t) (dateUTC 2018 7 24)
      (dateUTC 2018 7 24)
      { Repo := "test-repo", From := "", To := "blam", Weeks := 0,
        Months := 0, Years := 2, All := true }).2 (by decide)⟩

/-- C10, as stated, fails on two inputs with a valid combination of date arguments.
With the repository `a/b` and the date `blam`, `processInput` returns the error of the
`from` value, not the error of the repository form, and with it the zero
`processedInputs`, whose `Owner` and `Repo` are empty. With the repository `/` it
returns no error, and `Owner` and `Repo` are both empty. -/
theorem processInput_owner_repo_may_be_empty :
    processInput parseDate (fun t _ _ _ => t) (dateUTC 2018 7 24) (dateUTC 2018 7 24)
        { Repo := "a/b", From := "blam", To := "", Weeks := 0, Months := 0, Years := 0,
          All := false } =
      ({ Owner := "", Repo := "", From := zeroTime, To := zeroTime, All := false },
        some errFrom) ∧
    errFrom ≠ errRepo ∧
    processInput parseDate (fun t _ _ _ => t) (dateUTC 2018 7 24) (dateUTC 2018 7 24)
        { Repo := "/", From := "", To := "", Weeks := 0, Months := 0, Years := 0,
          All := false } =
      ({ Owner := "", Repo := "", From := zeroTime, To := dateUTC 2018 7 24, All := false },
        none) := by
  decide

/-- C10, amended: for every raw input with a valid combination of date arguments, a
repository argument that does not hold exactly one `/` (such as `test-repo`) is
rejected with the error "repo should be given in the form <owner>/<repo>" and the zero
`processedInputs`; and whenever `processInput` returns no error, neither the returned
`Owner` nor the returned `Repo` holds a `/`, and `Owner + "/" + Repo` is the repository
argument. -/
theorem processInput_repo_form (parse : String → Option Time)
    (addDate : Time → Int → Int → Int → Time) (now1 now2 : Time) (p : rawInputs)
    (hvalid : ¬((p.From ≠ "" ∨ p.To ≠ "") ∧ (p.Weeks ≠ 0 ∨ p.Months ≠ 0 ∨ p.Years ≠ 0))) :
    (p.Repo.data.count '/' ≠ 1 →
      processInput parse addDate now1 now2 p = (zeroProcessedInputs, some errRepo)) ∧
    ((processInput parse addDate now1 now2 p).2 = none →
      '/' ∉ (processInput parse addDate now1 now2 p).1.Owner.data ∧
      '/' ∉ (processInput parse addDate now1 now2 p).1.Repo.data ∧
      (processInput parse addDate now1 now2 p).1.Owner ++ "/" ++
        (processInput parse addDate now1 now2 p).1.Repo = p.Repo) := by
  constructor
  · intro hcount
    unfold processInput
    rw [if_neg hvalid]
    split
    · rename_i owner repo heq
      have hl := Split_length p.Repo
      rw [heq] at hl
      simp only [List.length_cons, List.length_nil] at hl
      omega
    · rfl
  · generalize hr : processInput parse addDate now1 now2 p = r
    intro hnone
    unfold processInput at hr
    rw [if_neg hvalid] at hr
    split at hr
    · rename_i owner repo heq
      split at hr
      · rw [← hr] at hnone
        simp at hnone
      · split at hr
        · rw [← hr] at hnone
          simp at hnone
        · rw [← hr]
          exact Split_two p.Repo owner repo heq
    · rw [← hr] at hnone
      simp at hnone

/-- The case "invalid repo" of the test-suite is rejected, and the case "just To" is
accepted with the owner and the repository name cut at the separator. -/
theorem processInput_repo_form_witness :
    processInput parseDate (fun t _ _ _ => t) (dateUTC 2018 7 24) (dateUTC 2018 7 24)
        { Repo := "test-repo", From := "", To := "", Weeks := 0, Months := 0, Years := 0,
          All := false } =
      (zeroProcessedInputs, some errRepo) ∧
    (processInput parseDate (fun t _ _ _ => t) (dateUTC 2018 7 24) (dateUTC 2018 7 24)
        { Repo := "test-owner/test-repo", From := "", To := "2018-07-24", Weeks := 0,
          Months := 0, Years := 0, All := false }).1.Owner ++ "/" ++
      (processInput parseDate (fun t _ _ _ => t) (dateUTC 2018 7 24) (dateUTC 2018 7 24)
        { Repo := "test-owner/test-repo", From := "", To := "2018-07-24", Weeks := 0,
          Months := 0, Years := 0, All := false }).1.Repo = "test-owner/test-repo" ∧
    (processInput parseDate (fun t _ _ _ => t) (dateUTC 2018 7 24) (dateUTC 2018 7 24)
        { Repo := "test-owner/test-repo", From := "", To := "2018-07-24", Weeks := 0,
          Months := 0, Years := 0, All := false }).1.Owner = "test-owner" :=
  ⟨(processInput_repo_form parseDate (fun t _ _ _ => t) (dateUTC 2018 7 24) (dateUTC 2018 7 24)
      { Repo := "test-repo", From := "", To := "", Weeks := 0, Months := 0, Years := 0,
        All := false } (by decide)).1 (by decide),
    ((processInput_repo_form parseDate (fun t _ _ _ => t) (dateUTC 2018 7 24)
      (dateUTC 2018 7 24)
      { Repo := "test-owner/test-repo", From := "", To := "2018-07-24", Weeks := 0,
        Months := 0, Years := 0, All := false } (by decide)).2 (by decide)).2.2,
    by decide⟩

/-! ## Ranges that select nothing -/

/-- A range that holds none of the buckets of the record gives the login with zero
totals. -/
theorem CalcContributions_of_none_in_range (c : github.ContributorStats)
    (o : CalcContrbutionsOpts) (h : ∀ w ∈ c.Weeks, ¬InRange o w) :
    CalcContributions c o =
      { Name := c.Author.Login, Stats := { Additions := 0, Deletions := 0, Commits := 0 } } := by
  have hf : bucketsInRange o c.Weeks = [] := by
    unfold bucketsInRange
    rw [List.filter_eq_nil_iff]
    intro w hw
    simpa using h w hw
  rw [CalcContributions_eq]
  unfold specTotals
  rw [hf]
  simp [sumInt, wrapInt64_zero]

/-- With an `int64` number of epoch seconds, the seconds since year 1 of the converted
time are the sum with `unixToInternal`, or that sum less `2^64` when it overflows. -/
theorem sec_Unix_cases (sec : Int) (h : InInt64 sec) :
    (Unix sec 0).sec = sec + 62135596800 ∨
      (Unix sec 0).sec = sec + 62135596800 - 18446744073709551616 := by
  rw [sec_Unix]
  unfold InInt64 at h
  unfold wrapInt64 unixToInternal
  omega

/-- C13: an empty or inverted range selects nothing. For every record and every options
value whose `To` is at or before its `From` (wall-clock order), in particular for the
all-zero options value, `CalcContributions` returns the login of the record with
additions, deletions and commits all zero. -/
theorem calcContributions_empty_or_inverted_range (c : github.ContributorStats)
    (o : CalcContrbutionsOpts) (h : o.To.instLE o.From) :
    CalcContributions c o =
      { Name := c.Author.Login, Stats := { Additions := 0, Deletions := 0, Commits := 0 } } := by
  apply CalcContributions_of_none_in_range
  intro w _ hin
  unfold InRange Time.instLE Time.instLT at hin
  unfold Time.instLE at h
  omega

/-- The case "No Range" of the test-suite: the test record against the all-zero options
value `CalcContrbutionsOpts{}`. -/
theorem calcContributions_empty_or_inverted_range_witness :
    zeroTime.instLE zeroTime ∧
    CalcContributions
        { Author := { Login := "Luke-Davies" },
          Weeks :=
            [{ WeekBeginning := 1527984000, Additions := 10, Deletions := 12, Commits := 3 },
             { WeekBeginning := 1528588800, Additions := 11, Deletions := 14, Commits := 2 },
             { WeekBeginning := 1529193600, Additions := 55, Deletions := 44, Commits := 3 },
             { WeekBeginning := 1529798400, Additions := 33, Deletions := 22, Commits := 7 }] }
        { From := zeroTime, To := zeroTime } =
      { Name := "Luke-Davies", Stats := { Additions := 0, Deletions := 0, Commits := 0 } } :=
  ⟨by decide, calcContributions_empty_or_inverted_range _ _ (by decide)⟩

/-- C12: a range from a Monday to the Saturday of the same week holds no week start.
For every record whose buckets all start on a Sunday 00:00:00 UTC (`int64` epoch seconds
with `WeekBeginning mod 604800 = 259200`), every `From` that is a Monday 00:00:00 UTC
(a whole number of weeks after Monday 0001-01-01 00:00:00 UTC) and `To` five days after
`From`, `CalcContributions` returns, as an ordinary result, the login with additions,
deletions and commits all zero. -/
theorem calcContributions_monday_to_saturday_empty (c : github.ContributorStats)
    (o : CalcContrbutionsOpts)
    (hweeks : ∀ w ∈ c.Weeks, InInt64 w.WeekBeginning ∧ w.WeekBeginning % 604800 = 259200)
    (hfrom : o.From.sec % 604800 = 0 ∧ o.From.nsec = 0)
    (hto : o.To.sec = o.From.sec + 5 * 86400 ∧ o.To.nsec = 0) :
    CalcContributions c o =
      { Name := c.Author.Login, Stats := { Additions := 0, Deletions := 0, Commits := 0 } } := by
  apply CalcContributions_of_none_in_range
  intro w hw hin
  obtain ⟨hint, hmod⟩ := hweeks w hw
  have hn := nsec_Unix w.WeekBeginning
  have hs := sec_Unix_cases w.WeekBeginning hint
  unfold InRange Time.instLE Time.instLT at hin
  omega

/-- The buckets of the test record start on Sundays (3, 10, 17 and 24 June 2018); the
range from Monday 2018-06-11 to Saturday 2018-06-16 gives zero totals. -/
theorem calcContributions_monday_to_saturday_empty_witness :
    CalcContributions
        { Author := { Login := "Luke-Davies" },
          Weeks :=
            [{ WeekBeginning := 1527984000, Additions := 10, Deletions := 12, Commits := 3 },
             { WeekBeginning := 1528588800, Additions := 11, Deletions := 14, Commits := 2 },
             { WeekBeginning := 1529193600, Additions := 55, Deletions := 44, Commits := 3 },
             { WeekBeginning := 1529798400, Additions := 33, Deletions := 22, Commits := 7 }] }
        { From := dateUTC 2018 6 11, To := dateUTC 2018 6 16 } =
      { Name := "Luke-Davies", Stats := { Additions := 0, Deletions := 0, Commits := 0 } } :=
  calcContributions_monday_to_saturday_empty
    { Author := { Login := "Luke-Davies" },
      Weeks :=
        [{ WeekBeginning := 1527984000, Additions := 10, Deletions := 12, Commits := 3 },
         { WeekBeginning := 1528588800, Additions := 11, Deletions := 14, Commits := 2 },
         { WeekBeginning := 1529193600, Additions := 55, Deletions := 44, Commits := 3 },
         { WeekBeginning := 1529798400, Additions := 33, Deletions := 22, Commits := 7 }] }
    { From := dateUTC 2018 6 11, To := dateUTC 2018 6 16 }
    (by decide) (by decide) (by decide)

/-! ## Splitting a range -/

theorem wrapInt64_add_both (a b : Int) :
    wrapInt64 (wrapInt64 a + wrapInt64 b) = wrapInt64 (a + b) := by
  rw [wrapInt64_add_wrapInt64, add_comm a, wrapInt64_add_wrapInt64, add_comm]

/-- With `From ≤ Mid ≤ To`, a bucket lies in `[From, To)` exactly when it lies in
`[From, Mid)` or in `[Mid, To)`, and it never lies in both. -/
theorem inRange_split (f m t : Time) (w : github.Week) (h1 : f.instLE m) (h2 : m.instLE t) :
    (InRange { From := f, To := t } w ↔
      (InRange { From := f, To := m } w ∨ InRange { From := m, To := t } w)) ∧
    ¬(InRange { From := f, To := m } w ∧ InRange { From := m, To := t } w) := by
  unfold Time.instLE at h1 h2
  simp only [InRange, Time.instLE, Time.instLT]
  constructor
  · constructor
    · intro h
      omega
    · intro h
      omega
  · intro h
    omega

/-- With `From ≤ Mid ≤ To`, the buckets in `[From, To)` are those in `[From, Mid)`
together with those in `[Mid, To)`, each as often as it occurs. -/
theorem bucketsInRange_split (f m t : Time) (ws : List github.Week) (h1 : f.instLE m)
    (h2 : m.instLE t) :
    (bucketsInRange { From := f, To := t } ws).Perm
      (bucketsInRange { From := f, To := m } ws ++ bucketsInRange { From := m, To := t } ws) := by
  induction ws with
  | nil => simp [bucketsInRange]
  | cons w ws ih =>
    obtain ⟨hiff, hnot⟩ := inRange_split f m t w h1 h2
    simp only [bucketsInRange] at ih ⊢
    by_cases ha : InRange { From := f, To := m } w
    · have hb : ¬InRange { From := m, To := t } w := fun hb => hnot ⟨ha, hb⟩
      have hc : InRange { From := f, To := t } w := hiff.mpr (Or.inl ha)
      simp only [List.filter_cons, ha, hb, hc, decide_True, decide_False, if_true,
        Bool.false_eq_true, if_false, List.cons_append]
      exact List.Perm.cons w ih
    · by_cases hb : InRange { From := m, To := t } w
      · have hc : InRange { From := f, To := t } w := hiff.mpr (Or.inr hb)
        simp only [List.filter_cons, ha, hb, hc, decide_True, decide_False, if_true,
          Bool.false_eq_true, if_false]
        exact (List.Perm.cons w ih).trans List.perm_middle.symm
      · have hc : ¬InRange { From := f, To := t } w := fun hc => (hiff.mp hc).elim ha hb
        simp only [List.filter_cons, ha, hb, hc, decide_False, Bool.false_eq_true, if_false]
        exact ih

/-- The integer sum of a counter over the buckets in `[From, To)` is the sum over
`[From, Mid)` plus the sum over `[Mid, To)`. -/
theorem sum_bucketsInRange_split (f m t : Time) (ws : List github.Week) (g : github.Week → Int)
    (h1 : f.instLE m) (h2 : m.instLE t) :
    ((bucketsInRange { From := f, To := t } ws).map g).sum =
      ((bucketsInRange { From := f, To := m } ws).map g).sum +
        ((bucketsInRange { From := m, To := t } ws).map g).sum := by
  rw [((bucketsInRange_split f m t ws h1 h2).map g).sum_eq, List.map_append, List.sum_append]

/-- C14: range splitting is additive. For every record and all instants
`From ≤ Mid ≤ To` (wall-clock order), each total of `CalcContributions` over `[From, To)`
is the Go `int` sum of the totals over `[From, Mid)` and over `[Mid, To)`; the buckets
counted over `[From, To)` are those counted in the first half together with those
counted in the second, none lost and none in both, so that the integer sums of each
counter add up exactly. -/
theorem calcContributions_range_split (c : github.ContributorStats) (f m t : Time)
    (h1 : f.instLE m) (h2 : m.instLE t) :
    (CalcContributions c { From := f, To := t }).Stats.Additions =
      addInt (CalcContributions c { From := f, To := m }).Stats.Additions
        (CalcContributions c { From := m, To := t }).Stats.Additions ∧
    (CalcContributions c { From := f, To := t }).Stats.Deletions =
      addInt (CalcContributions c { From := f, To := m }).Stats.Deletions
        (CalcContributions c { From := m, To := t }).Stats.Deletions ∧
    (CalcContributions c { From := f, To := t }).Stats.Commits =
      addInt (CalcContributions c { From := f, To := m }).Stats.Commits
        (CalcContributions c { From := m, To := t }).Stats.Commits ∧
    (bucketsInRange { From := f, To := t } c.Weeks).Perm
      (bucketsInRange { From := f, To := m } c.Weeks ++
        bucketsInRange { From := m, To := t } c.Weeks) ∧
    (∀ w, ¬(InRange { From := f, To := m } w ∧ InRange { From := m, To := t } w)) ∧
    (∀ g : github.Week → Int,
      ((bucketsInRange { From := f, To := t } c.Weeks).map g).sum =
        ((bucketsInRange { From := f, To := m } c.Weeks).map g).sum +
          ((bucketsInRange { From := m, To := t } c.Weeks).map g).sum) := by
  refine ⟨?_, ?_, ?_, bucketsInRange_split f m t c.Weeks h1 h2,
    fun w => (inRange_split f m t w h1 h2).2,
    fun g => sum_bucketsInRange_split f m t c.Weeks g h1 h2⟩
  · simp only [CalcContributions_eq, specTotals, sumInt, addInt, wrapInt64_add_both,
      sum_bucketsInRange_split f m t c.Weeks _ h1 h2]
  · simp only [CalcContributions_eq, specTotals, sumInt, addInt, wrapInt64_add_both,
      sum_bucketsInRange_split f m t c.Weeks _ h1 h2]
  · simp only [CalcContributions_eq, specTotals, sumInt, addInt, wrapInt64_add_both,
      sum_bucketsInRange_split f m t c.Weeks _ h1 h2]

/-- The test record over June 2018, cut at 2018-06-12: the first half holds the buckets
of 3 and 10 June, the second those of 17 and 24 June, and the additions 21 and 88 of the
halves add up to the 109 of the whole month. -/
theorem calcContributions_range_split_witness :
    (dateUTC 2018 6 1).instLE (dateUTC 2018 6 12) ∧
    (dateUTC 2018 6 12).instLE (dateUTC 2018 7 1) ∧
    (CalcContributions
        { Author := { Login := "Luke-Davies" },
          Weeks :=
            [{ WeekBeginning := 1527984000, Additions := 10, Deletions := 12, Commits := 3 },
             { WeekBeginning := 1528588800, Additions := 11, Deletions := 14, Commits := 2 },
             { WeekBeginning := 1529193600, Additions := 55, Deletions := 44, Commits := 3 },
             { WeekBeginning := 1529798400, Additions := 33, Deletions := 22, Commits := 7 }] }
        { From := dateUTC 2018 6 1, To := dateUTC 2018 6 12 }).Stats.Additions = 21 ∧
    (CalcContributions
        { Author := { Login := "Luke-Davies" },
          Weeks :=
            [{ WeekBeginning := 1527984000, Additions := 10, Deletions := 12, Commits := 3 },
             { WeekBeginning := 1528588800, Additions := 11, Deletions := 14, Commits := 2 },
             { WeekBeginning := 1529193600, Additions := 55, Deletions := 44, Commits := 3 },
             { WeekBeginning := 1529798400, Additions := 33, Deletions := 22, Commits := 7 }] }
        { From := dateUTC 2018 6 12, To := dateUTC 2018 7 1 }).Stats.Additions = 88 ∧
    (CalcContributions
        { Author := { Login := "Luke-Davies" },
          Weeks :=
            [{ WeekBeginning := 1527984000, Additions := 10, Deletions := 12, Commits := 3 },
             { WeekBeginning := 1528588800, Additions := 11, Deletions := 14, Commits := 2 },
             { WeekBeginning := 1529193600, Additions := 55, Deletions := 44, Commits := 3 },
             { WeekBeginning := 1529798400, Additions := 33, Deletions := 22, Commits := 7 }] }
        { From := dateUTC 2018 6 1, To := dateUTC 2018 7 1 }).Stats.Additions = 109 :=
  ⟨by decide, by decide, by decide, by decide,
    (calcContributions_range_split
        { Author := { Login := "Luke-Davies" },
          Weeks :=
            [{ WeekBeginning := 1527984000, Additions := 10, Deletions := 12, Commits := 3 },
             { WeekBeginning := 1528588800, Additions := 11, Deletions := 14, Commits := 2 },
             { WeekBeginning := 1529193600, Additions := 55, Deletions := 44, Commits := 3 },
             { WeekBeginning := 1529798400, Additions := 33, Deletions := 22, Commits := 7 }] }
        (dateUTC 2018 6 1) (dateUTC 2018 6 12) (dateUTC 2018 7 1) (by decide) (by decide)).1.trans
      (by decide)⟩

/-! ## Dates at or before the zero instant -/

/-- A `From` at or before the zero instant selects, among buckets that start at or after
the zero instant, the same buckets as the zero `From`. -/
theorem calcContributions_from_before_zero (c : github.ContributorStats) (f t : Time)
    (hf : f.instLE zeroTime) (h : ∀ w ∈ c.Weeks, zeroTime.instLE (Unix w.WeekBeginning 0)) :
    CalcContributions c { From := f, To := t } =
      CalcContributions c { From := zeroTime, To := t } := by
  have hb : bucketsInRange { From := f, To := t } c.Weeks =
      bucketsInRange { From := zeroTime, To := t } c.Weeks := by
    unfold bucketsInRange
    apply List.filter_congr
    intro w hw
    have hz := h w hw
    have hin : InRange { From := f, To := t } w ↔ InRange { From := zeroTime, To := t } w := by
      unfold Time.instLE at hf hz
      simp only [InRange, Time.instLE, Time.instLT]
      constructor
      · intro hi
        omega
      · intro hi
        omega
    simp only [hin]
  rw [CalcContributions_eq, CalcContributions_eq]
  unfold specTotals
  rw [hb]

/-- C11: the code at the date 0000-12-31, which is before 0001-01-01 and which
`--to 0000-12-31` and `--from 0000-12-31` parse to. Given as `To`, the date is not
treated as unset: normalisation returns it unchanged instead of the current instant,
validation then rejects the range, and the pipeline stops with that error. Given as
`From`, the date is kept as a lower bound: a bucket one second before 0001-01-01 is
counted, while the unset `From` leaves it out. -/
theorem normalise_keeps_to_before_year_one :
    parseDate "0000-12-31" = some (dateUTC 0 12 31) ∧
    (dateUTC 0 12 31).instLT zeroTime ∧
    processInput parseDate (fun t _ _ _ => t) (dateUTC 2018 7 24) (dateUTC 2018 7 24)
        { Repo := "test-owner/test-repo", From := "", To := "0000-12-31", Weeks := 0,
          Months := 0, Years := 0, All := false } =
      ({ Owner := "test-owner", Repo := "test-repo", From := zeroTime,
         To := dateUTC 0 12 31, All := false }, none) ∧
    NormaliseCalcContributionsOpts { From := zeroTime, To := dateUTC 0 12 31 }
        (dateUTC 2018 7 24) = { From := zeroTime, To := dateUTC 0 12 31 } ∧
    ValidateCalcContributionsOpts { From := zeroTime, To := dateUTC 0 12 31 }
        (dateUTC 2018 7 24) (dateUTC 2018 7 24) = some invalidRangeMsg ∧
    mainSummaries
        { Owner := "test-owner", Repo := "test-repo", From := zeroTime,
          To := dateUTC 0 12 31, All := false }
        [] (dateUTC 2018 7 24) (dateUTC 2018 7 24) (dateUTC 2018 7 24) =
      Except.error invalidRangeMsg ∧
    (CalcContributions
        { Author := { Login := "a" },
          Weeks := [{ WeekBeginning := -62135596801, Additions := 5, Deletions := 3, Commits := 1 }] }
        { From := dateUTC 0 12 31, To := dateUTC 2018 7 24 }).Stats =
      { Additions := 5, Deletions := 3, Commits := 1 } ∧
    (CalcContributions
        { Author := { Login := "a" },
          Weeks := [{ WeekBeginning := -62135596801, Additions := 5, Deletions := 3, Commits := 1 }] }
        { From := zeroTime, To := dateUTC 2018 7 24 }).Stats =
      { Additions := 0, Deletions := 0, Commits := 0 } := by
  refine ⟨by decide, by decide, by decide, by decide, by decide, rfl, by decide, by decide⟩

/-! ## Normalisation followed by validation -/

theorem no_shared_monotonic_left (t u : Time) (h : t.wall &&& hasMonotonic = 0) :
    t.wall &&& u.wall &&& hasMonotonic = 0 := by
  rw [Nat.and_assoc, Nat.and_comm u.wall, ← Nat.and_assoc, h, Nat.zero_and]

theorem no_shared_monotonic_right (t u : Time) (h : u.wall &&& hasMonotonic = 0) :
    t.wall &&& u.wall &&& hasMonotonic = 0 := by
  rw [Nat.and_assoc, h, Nat.and_zero]

/-- A time value with a monotonic reading has its wall seconds counted from 1885. -/
theorem sec_of_hasMonotonic (t : Time) (h : t.wall &&& hasMonotonic ≠ 0) :
    wallToInternal ≤ t.sec := by
  unfold Time.sec
  rw [if_pos h]
  have := Int.ofNat_nonneg (((t.wall <<< 1) % 2 ^ 64) >>> (nsecShift + 1))
  omega

/-- Two time values that do not both carry a monotonic reading are compared by the
wall clock. -/
theorem comparesByWallClock_of_no_shared_monotonic (t u : Time)
    (h : t.wall &&& u.wall &&& hasMonotonic = 0) : t.comparesByWallClock u := by
  unfold Time.comparesByWallClock Time.Equal Time.After Time.instLT
  simp only [h, ne_eq, not_true_eq_false, if_false, Bool.and_eq_true, Bool.or_eq_true,
    decide_eq_true_eq]
  refine ⟨trivial, ?_, ?_⟩
  · intro hh
    omega
  · intro hh
    omega

/-- The zero time value is not after any time value that is itself not before a time
value after the zero instant. -/
theorem zeroTime_not_after (now1 u : Time) (h0 : zeroTime.Before now1 = true)
    (h1 : now1.After u = false) : zeroTime.After u = false := by
  have hz : zeroTime.wall &&& hasMonotonic = 0 := by decide
  have hzs : zeroTime.sec = 0 := by decide
  have hzn : zeroTime.nsec = 0 := by decide
  have hun := nsec_nonneg u
  have hc := (comparesByWallClock_of_no_shared_monotonic zeroTime u
    (no_shared_monotonic_left zeroTime u hz)).2
  cases ha : zeroTime.After u with
  | false => rfl
  | true =>
    exfalso
    have hlt := hc.mp ha
    unfold Time.instLT at hlt
    rw [hzs, hzn] at hlt
    by_cases hm : u.wall &&& hasMonotonic = 0
    · have hc1 := (comparesByWallClock_of_no_shared_monotonic now1 u
        (no_shared_monotonic_right now1 u hm)).2
      have hc0 := (before_iff_not_equal_not_after zeroTime now1).mp h0
      have hz1 := comparesByWallClock_of_no_shared_monotonic zeroTime now1
        (no_shared_monotonic_left zeroTime now1 hz)
      have hn1 : ¬u.instLT now1 := fun hh => by
        rw [hc1.mpr hh] at h1
        exact Bool.noConfusion h1
      have he : ¬(zeroTime.sec = now1.sec ∧ zeroTime.nsec = now1.nsec) := fun hh => by
        rw [hz1.1.mpr hh] at hc0
        exact Bool.noConfusion hc0.1
      have hna : ¬now1.instLT zeroTime := fun hh => by
        rw [hz1.2.mpr hh] at hc0
        exact Bool.noConfusion hc0.2
      have hnn := nsec_nonneg now1
      unfold Time.instLT at hn1 hna
      rw [hzs, hzn] at he hna
      omega
    · have hs := sec_of_hasMonotonic u hm
      unfold wallToInternal at hs
      omega

theorem validate_none_of_tests_false (o : CalcContrbutionsOpts) (now1 now2 : Time)
    (h1 : o.From.Equal o.To = false) (h2 : o.From.After o.To = false)
    (h3 : o.From.After now1 = false) (h4 : o.To.After now2 = false) :
    ValidateCalcContributionsOpts o now1 now2 = none := by
  unfold ValidateCalcContributionsOpts
  simp [h1, h2, h3, h4]

theorem normalise_unset_to (f t now : Time) (h : t.IsZero = true) :
    NormaliseCalcContributionsOpts { From := f, To := t } now = { From := f, To := now } := by
  unfold NormaliseCalcContributionsOpts
  simp [h]

/-- C15: normalisation followed by validation succeeds. For the all-unset options, every
`now1` after the zero time and all later clock reads `nowV1`, `nowV2` of the validation
(later as Go compares them: `now1` is not `After` them; the claim is the case
`nowV1 = nowV2 = now2`), validation of the normalised options returns no error. More
generally, for an unset `To` and instants `From < now1 ≤ nowV1` and `now1 ≤ nowV2` that
Go compares as the wall clock orders them, validation of the normalised options returns
no error. -/
theorem normalise_then_validate_succeeds :
    (∀ now1 nowV1 nowV2 : Time, zeroTime.Before now1 = true → now1.After nowV1 = false →
      now1.After nowV2 = false →
      ValidateCalcContributionsOpts
        (NormaliseCalcContributionsOpts { From := zeroTime, To := zeroTime } now1)
        nowV1 nowV2 = none) ∧
    (∀ fromT toT now1 nowV1 nowV2 : Time, toT.IsZero = true →
      fromT.instLT now1 → now1.instLE nowV1 → now1.instLE nowV2 →
      fromT.comparesByWallClock now1 → fromT.comparesByWallClock nowV1 →
      now1.comparesByWallClock nowV2 →
      ValidateCalcContributionsOpts
        (NormaliseCalcContributionsOpts { From := fromT, To := toT } now1)
        nowV1 nowV2 = none) := by
  constructor
  · intro now1 nowV1 nowV2 h0 h1 h2
    rw [normalise_unset_to zeroTime zeroTime now1 (by decide)]
    have hb := (before_iff_not_equal_not_after zeroTime now1).mp h0
    exact validate_none_of_tests_false _ _ _ hb.1 hb.2 (zeroTime_not_after now1 nowV1 h0 h1) h2
  · intro fromT toT now1 nowV1 nowV2 hz hlt hle1 hle2 hc1 hc2 hc3
    rw [normalise_unset_to fromT toT now1 hz]
    have hn1 := nsec_nonneg fromT
    unfold Time.instLT at hlt
    unfold Time.instLE at hle1 hle2
    apply validate_none_of_tests_false
    · cases h : fromT.Equal now1 with
      | false => rfl
      | true =>
        have := hc1.1.mp h
        omega
    · cases h : fromT.After now1 with
      | false => rfl
      | true =>
        have := hc1.2.mp h
        unfold Time.instLT at this
        omega
    · cases h : fromT.After nowV1 with
      | false => rfl
      | true =>
        have := hc2.2.mp h
        unfold Time.instLT at this
        omega
    · show now1.After nowV2 = false
      cases h : now1.After nowV2 with
      | false => rfl
      | true =>
        have := hc3.2.mp h
        unfold Time.instLT at this
        omega

/-- Clock reads of 2018-07-24 12:00:00.5 UTC and of 1000 and 1200 nanoseconds later, each
with its monotonic reading: the default invocation passes validation, and so does the
invocation with `From` = 2018-06-16. -/
theorem normalise_then_validate_succeeds_witness :
    ValidateCalcContributionsOpts
        (NormaliseCalcContributionsOpts { From := zeroTime, To := zeroTime }
          { wall := 2 ^ 63 + 4214721600 * 2 ^ 30 + 500000000, ext := 1234567 })
        { wall := 2 ^ 63 + 4214721600 * 2 ^ 30 + 500001000, ext := 1235567 }
        { wall := 2 ^ 63 + 4214721600 * 2 ^ 30 + 500001200, ext := 1235767 } = none ∧
    ValidateCalcContributionsOpts
        (NormaliseCalcContributionsOpts { From := dateUTC 2018 6 16, To := zeroTime }
          { wall := 2 ^ 63 + 4214721600 * 2 ^ 30 + 500000000, ext := 1234567 })
        { wall := 2 ^ 63 + 4214721600 * 2 ^ 30 + 500001000, ext := 1235567 }
        { wall := 2 ^ 63 + 4214721600 * 2 ^ 30 + 500001200, ext := 1235767 } = none :=
  ⟨normalise_then_validate_succeeds.1
      { wall := 2 ^ 63 + 4214721600 * 2 ^ 30 + 500000000, ext := 1234567 }
      { wall := 2 ^ 63 + 4214721600 * 2 ^ 30 + 500001000, ext := 1235567 }
      { wall := 2 ^ 63 + 4214721600 * 2 ^ 30 + 500001200, ext := 1235767 }
      (by decide) (by decide) (by decide),
    normalise_then_validate_succeeds.2 (dateUTC 2018 6 16) zeroTime
      { wall := 2 ^ 63 + 4214721600 * 2 ^ 30 + 500000000, ext := 1234567 }
      { wall := 2 ^ 63 + 4214721600 * 2 ^ 30 + 500001000, ext := 1235567 }
      { wall := 2 ^ 63 + 4214721600 * 2 ^ 30 + 500001200, ext := 1235767 }
      (by decide) (by decide) (by decide) (by decide) (by decide) (by decide) (by decide)⟩

/-- Why the general case asks for the wall-clock order: with `From` = 2018-07-24 and
`now1` = 2018-07-24 12:00:00.5, a later clock read (larger monotonic reading) taken
after the wall clock was set back to 2018-07-23 23:59:59.6 is not an instant at or after
`now1`, and the validation at that read rejects the range because `From` is after it. -/
theorem validate_after_wall_clock_set_back :
    ValidateCalcContributionsOpts
        (NormaliseCalcContributionsOpts { From := dateUTC 2018 7 24, To := zeroTime }
          { wall := 2 ^ 63 + 4214721600 * 2 ^ 30 + 500000000, ext := 1000 })
        { wall := 2 ^ 63 + 4214678399 * 2 ^ 30 + 600000000, ext := 2000 }
        { wall := 2 ^ 63 + 4214678399 * 2 ^ 30 + 600000000, ext := 2000 } =
      some invalidRangeMsg ∧
    ¬({ wall := 2 ^ 63 + 4214721600 * 2 ^ 30 + 500000000, ext := 1000 } : Time).instLE
      { wall := 2 ^ 63 + 4214678399 * 2 ^ 30 + 600000000, ext := 2000 } := by
  decide

end GhContribStats
